import Mathlib

/-!
Shallow embedding of the `TagVectorSystem` class from `src/index.ts` of the
EmbedDB repository, together with proofs about the claims of its
specification.

Modelling conventions:
* A JS `Map` is modelled as an association list in insertion order:
  `Map.get` returns the value of the first (unique) matching entry,
  `Map.set` overwrites the value in place (keeping the key's position) or
  appends a new entry at the end, `Map.delete` removes the entry.  A plain
  JS object used as a dictionary (in `exportIndex` / `importIndex`) also
  preserves string-key insertion order and is modelled the same way.
* JS numbers are idealised as exact rationals (`ℚ`); the cosine-similarity
  computation, which takes square roots, is idealised over the reals (`ℝ`),
  which is why the query pipeline is `noncomputable`.
* JS strings are Lean strings, with codepoint order standing in for
  `localeCompare`.
* `JSON.stringify` applied to a canonically ordered tag array is injective,
  so the query hash is modelled as the sorted tag list itself; the source
  compares hashes only for equality.
* A JS function value compared by reference identity (the query `filter`)
  is modelled as a predicate bundled with a numeric identity `fid`.
* The item metadata (`meta?: T`) is modelled by an `Option M`; the source
  passes `this.itemMeta.get(id) || {}` to the filter, which is modelled by
  handing the filter the `Option M` itself (`none` plays the role of `{}`).
-/

/-- `IndexTag` from the source: a `(category, value)` pair. -/
structure IndexTag where
  category : String
  value : String
  deriving DecidableEq

/-- `Tag` from the source: an `IndexTag` plus a confidence. -/
structure Tag where
  category : String
  value : String
  confidence : ℚ
  deriving DecidableEq

/-- `CategoryWeight` from the source: `weight?: number` is an `Option ℚ`. -/
structure CategoryWeight where
  category : String
  weight : Option ℚ
  deriving DecidableEq

/-- `ItemTags<T>` from the source. -/
structure ItemTags (M : Type) where
  id : String
  tags : List Tag
  meta : Option M

/-- `SparseVector = Map<number, number>` from the source. -/
abbrev SparseVector : Type := List (ℕ × ℚ)

/-- `QueryResult` from the source.  Similarities live in the idealised reals. -/
structure QueryResult where
  id : String
  similarity : ℝ

/-- An `IFilter` function value: `pred` is the predicate applied to an item's
metadata and `fid` models the JS reference identity of the function object. -/
structure IFilter (M : Type) where
  fid : ℕ
  pred : Option M → Bool

/-- `QueryCache` from the source. -/
structure QueryCache (M : Type) where
  queryHash : List Tag
  sortedResults : List QueryResult
  filter : Option (IFilter M)

/-- `QueryOptions` from the source (defaults `page = 1`, `size = 10` are
supplied explicitly at call sites). -/
structure QueryOptions (M : Type) where
  page : ℕ
  size : ℕ
  filter : Option (IFilter M)

/-- `ExportedData` from the source. `itemVectors` is optional. -/
structure ExportedData where
  categoryMap : List (String × List (String × ℕ))
  vectorSize : ℕ
  categoryWeights : List CategoryWeight
  itemVectors : Option (List (String × SparseVector))

/-- The private state of a `TagVectorSystem` instance. -/
structure TagVectorSystem (M : Type) where
  categoryMap : List (String × List (String × ℕ))
  vectorSize : ℕ
  itemVectors : List (String × SparseVector)
  queryCache : Option (QueryCache M)
  categoryWeights : List (String × ℚ)
  itemMeta : List (String × M)

section MapModel

variable {κ ν : Type} [DecidableEq κ]

/-- `Map.get`: the value of the first entry with the given key. -/
def mget : List (κ × ν) → κ → Option ν
  | [], _ => none
  | e :: rest, k => if e.1 = k then some e.2 else mget rest k

/-- `Map.set`: overwrite an existing key in place, else append a new entry. -/
def mset : List (κ × ν) → κ → ν → List (κ × ν)
  | [], k, v => [(k, v)]
  | e :: rest, k, v => if e.1 = k then (k, v) :: rest else e :: mset rest k v

/-- `Map.delete`: remove the entry with the given key. -/
def mdel (m : List (κ × ν)) (k : κ) : List (κ × ν) :=
  m.filter (fun e => decide (e.1 ≠ k))

/-- The keys of a map, in insertion order. -/
def keysOf (m : List (κ × ν)) : List κ :=
  m.map Prod.fst

end MapModel

/-- Evaluation of the JS expression `x || 1` on an optional number:
`undefined` and `0` are falsy and give `1`. -/
def jsOr1 (x : Option ℚ) : ℚ :=
  match x with
  | none => 1
  | some w => if w = 0 then 1 else w

/-- A string as its list of code points; `localeCompare` is idealised as the
lexicographic order on these lists (a total order, which is all the source
relies on). -/
def strKey (s : String) : List ℕ :=
  s.data.map Char.toNat

/-- The three-level comparison key used by `generateQueryHash`:
`category.localeCompare || value.localeCompare || (confidence - confidence)`
is an ascending lexicographic order on `(category, value, confidence)`. -/
def tagKey (t : Tag) : Lex (List ℕ × Lex (List ℕ × ℚ)) :=
  toLex (strKey t.category, toLex (strKey t.value, t.confidence))

/-- The sorting relation of `generateQueryHash`. -/
def tagLE (a b : Tag) : Prop :=
  tagKey a ≤ tagKey b

instance : DecidableRel tagLE :=
  fun a b => inferInstanceAs (Decidable (tagKey a ≤ tagKey b))

instance : IsTotal Tag tagLE :=
  ⟨fun a b => le_total (tagKey a) (tagKey b)⟩

instance : IsTrans Tag tagLE :=
  ⟨fun _ _ _ h₁ h₂ => le_trans h₁ h₂⟩

instance : IsAntisymm Tag tagLE := by
  have hinj : Function.Injective strKey := by
    intro a b h
    apply String.ext
    refine List.map_injective_iff.mpr ?_ h
    intro c d hcd
    have hv : c.val = d.val := by
      apply UInt32.eq_of_toBitVec_eq
      apply BitVec.eq_of_toNat_eq
      simpa [UInt32.toNat] using hcd
    exact Char.eq_of_val_eq hv
  refine ⟨fun a b h₁ h₂ => ?_⟩
  have h := le_antisymm h₁ h₂
  cases a
  cases b
  simp only [tagKey, toLex_inj, Prod.mk.injEq] at h
  obtain ⟨hc, hv, hq⟩ := h
  simp_all [hinj hc, hinj hv]

/-- `queryTags.sort(comparator)`: JS `Array.sort` is stable, and the
comparator is antisymmetric up to structural tag equality, so any sorted
permutation is unique; insertion sort therefore coincides with it. -/
def tagSort (l : List Tag) : List Tag :=
  List.insertionSort tagLE l

/-- `generateQueryHash` from the source: sorts the tag array (in place, see
`query`) and stringifies it; the hash is modelled as the sorted list. -/
def generateQueryHash (queryTags : List Tag) : List Tag :=
  tagSort queryTags

namespace TagVectorSystem

variable {M : Type}

/-- The `constructor()` of the class: everything empty. -/
def new (M : Type) : TagVectorSystem M :=
  ⟨[], 0, [], none, [], []⟩

/-- `buildIndex(allTags)` from the source: `position` restarts at `0`, the
existing `categoryMap` is NOT cleared, only pairs not already present are
assigned, and `vectorSize` becomes the final `position`. -/
def buildIndex (s : TagVectorSystem M) (allTags : List IndexTag) : TagVectorSystem M :=
  let r := allTags.foldl
    (fun (acc : List (String × List (String × ℕ)) × ℕ) tag =>
      let cm := if (mget acc.1 tag.category).isNone
                then mset acc.1 tag.category [] else acc.1
      let valueMap := (mget cm tag.category).getD []
      if (mget valueMap tag.value).isNone then
        (mset cm tag.category (mset valueMap tag.value acc.2), acc.2 + 1)
      else (cm, acc.2))
    (s.categoryMap, 0)
  { s with categoryMap := r.1, vectorSize := r.2 }

/-- The dimension assigned to a `(category, value)` pair (observer). -/
def dimOf (s : TagVectorSystem M) (c v : String) : Option ℕ :=
  match mget s.categoryMap c with
  | none => none
  | some valueMap => mget valueMap v

/-- `encodeToSparseVector(tags)` from the source: unknown pairs are skipped,
a tag needs `confidence > 0`, and the stored value is
`confidence * (categoryWeights.get(category) || 1)`. -/
def encodeToSparseVector (s : TagVectorSystem M) (tags : List Tag) : SparseVector :=
  tags.foldl
    (fun (sv : SparseVector) tag =>
      match mget s.categoryMap tag.category with
      | none => sv
      | some valueMap =>
        match mget valueMap tag.value with
        | none => sv
        | some position =>
          if (0 : ℚ) < tag.confidence then
            mset sv position (tag.confidence * jsOr1 (mget s.categoryWeights tag.category))
          else sv)
    ([] : SparseVector)

/-- The body of the `forEach` in `addItemBatch` for a single tender. -/
def addOne (s : TagVectorSystem M) (tender : ItemTags M) : TagVectorSystem M :=
  { s with
    itemVectors := mset s.itemVectors tender.id (encodeToSparseVector s tender.tags)
    itemMeta :=
      match tender.meta with
      | some m => mset s.itemMeta tender.id m
      | none => s.itemMeta }

/-- `addItemBatch(tenders, batchSize)` from the source.  The batching loop
visits the tenders in input order in chunks of `batchSize`; chunking only
schedules the same per-tender work, so the state effect is a single left
fold, followed by one cache clear. -/
def addItemBatch (s : TagVectorSystem M) (tenders : List (ItemTags M)) : TagVectorSystem M :=
  { tenders.foldl addOne s with queryCache := none }

/-- `addItem(tender)` from the source. -/
def addItem (s : TagVectorSystem M) (tender : ItemTags M) : TagVectorSystem M :=
  s.addItemBatch [tender]

/-- `removeItems(itemIds)` from the source. -/
def removeItems (s : TagVectorSystem M) (itemIds : List String) : TagVectorSystem M :=
  let r := itemIds.foldl (fun acc id => (mdel acc.1 id, mdel acc.2 id))
    (s.itemVectors, s.itemMeta)
  { s with itemVectors := r.1, itemMeta := r.2, queryCache := none }

/-- `clearQueryCache()` from the source. -/
def clearQueryCache (s : TagVectorSystem M) : TagVectorSystem M :=
  { s with queryCache := none }

/-- `setCategoryWeight(category, weight)` from the source: stores the weight
exactly as given. -/
def setCategoryWeight (s : TagVectorSystem M) (category : String) (weight : ℚ) :
    TagVectorSystem M :=
  { s with
    categoryWeights := mset s.categoryWeights category weight
    queryCache := none }

/-- `setCategoryWeights(weights)` from the source: each entry stores
`weight || 1`. -/
def setCategoryWeights (s : TagVectorSystem M) (weights : List CategoryWeight) :
    TagVectorSystem M :=
  { s with
    categoryWeights :=
      weights.foldl (fun m w => mset m w.category (jsOr1 w.weight)) s.categoryWeights
    queryCache := none }

/-- `getCategoryWeight(category)` from the source: `get(category) || 1`. -/
def getCategoryWeight (s : TagVectorSystem M) (category : String) : ℚ :=
  jsOr1 (mget s.categoryWeights category)

/-- `getAllCategoryWeights()` from the source. -/
def getAllCategoryWeights (s : TagVectorSystem M) : List CategoryWeight :=
  s.categoryWeights.map (fun e => ⟨e.1, some e.2⟩)

/-- `exportIndex(includeItems)` from the source: the maps are copied
entry-by-entry into plain objects / arrays in insertion order. -/
def exportIndex (s : TagVectorSystem M) (includeItems : Bool) : ExportedData :=
  { categoryMap := s.categoryMap
    vectorSize := s.vectorSize
    categoryWeights := s.categoryWeights.map (fun e => ⟨e.1, some e.2⟩)
    itemVectors := if includeItems then some s.itemVectors else none }

/-- `importIndex(data)` from the source: rebuilds `categoryMap`,
`vectorSize`, `categoryWeights` (as `weight || 1`) and `itemVectors`
(absent means an empty store) by inserting the exported entries into fresh
maps, and clears the query cache.  The source never touches `itemMeta`. -/
def importIndex (s : TagVectorSystem M) (data : ExportedData) : TagVectorSystem M :=
  { s with
    categoryMap :=
      data.categoryMap.foldl
        (fun cm e => mset cm e.1 (e.2.foldl (fun vm p => mset vm p.1 p.2) [])) []
    vectorSize := data.vectorSize
    categoryWeights :=
      data.categoryWeights.foldl (fun m w => mset m w.category (jsOr1 w.weight)) []
    itemVectors :=
      (data.itemVectors.getD []).foldl
        (fun iv e => mset iv e.1 (e.2.foldl (fun sv p => mset sv p.1 p.2) [])) []
    queryCache := none }

end TagVectorSystem

/-- `vec.get(pos) || 0` from `cosineSimilarity`. -/
def get0 (v : SparseVector) (p : ℕ) : ℚ :=
  (mget v p).getD 0

/-- The `dotProduct` accumulator of `cosineSimilarity`: iterates the entries
of `vec1`, looking each position up in `vec2` (`vec2.get(pos) || 0`). -/
noncomputable def dotSum (vec1 vec2 : SparseVector) : ℝ :=
  (vec1.map (fun e => (e.2 : ℝ) * ((get0 vec2 e.1 : ℚ) : ℝ))).sum

/-- The `norm1`/`norm2` accumulators of `cosineSimilarity` before the square
root: the sum of squared entries of a vector. -/
noncomputable def normSq (v : SparseVector) : ℝ :=
  (v.map (fun e => (e.2 : ℝ) * (e.2 : ℝ))).sum

/-- `cosineSimilarity(vec1, vec2)` from the source, idealised over `ℝ`:
`norm1 && norm2 ? dotProduct / (norm1 * norm2) : 0` with
`norm1 = sqrt(normSq vec1)` and `norm2 = sqrt(normSq vec2)` — a zero norm is
falsy and gives `0`. -/
noncomputable def cosineSimilarity (vec1 vec2 : SparseVector) : ℝ :=
  if Real.sqrt (normSq vec1) = 0 ∨ Real.sqrt (normSq vec2) = 0 then 0
  else dotSum vec1 vec2 / (Real.sqrt (normSq vec1) * Real.sqrt (normSq vec2))

/-- Stable insertion step for the descending sort of `query`: an element is
placed after every earlier element of strictly larger similarity and before
equal ones, which is exactly the stable JS `sort((a, b) => b.similarity -
a.similarity)`. -/
noncomputable def insertDesc (x : QueryResult) : List QueryResult → List QueryResult
  | [] => [x]
  | y :: ys => if x.similarity < y.similarity then y :: insertDesc x ys else x :: y :: ys

/-- Stable descending sort by similarity (see `insertDesc`). -/
noncomputable def sortDesc : List QueryResult → List QueryResult
  | [] => []
  | x :: xs => insertDesc x (sortDesc xs)

/-- Application of an optional filter to an item's metadata:
`!filter || filter(itemMeta.get(id) || {}, 0, [])`. -/
def passFilter {M : Type} (f : Option (IFilter M)) (meta : Option M) : Bool :=
  match f with
  | none => true
  | some flt => flt.pred meta

namespace TagVectorSystem

variable {M : Type}

/-- `isCacheValid(queryHash, filter)` from the source: the hash strings must
be equal and the filters must both be absent or be the same function object. -/
def isCacheValid (s : TagVectorSystem M) (queryHash : List Tag) (f : Option (IFilter M)) :
    Bool :=
  match s.queryCache with
  | none => false
  | some c =>
    decide (c.queryHash = queryHash) &&
      match f, c.filter with
      | none, none => true
      | some g, some h => decide (g.fid = h.fid)
      | _, _ => false

/-- The unsorted candidate list built inside `query`: filter the item store
by the metadata filter, score each item against the query vector, and keep
strictly positive similarities. -/
noncomputable def candidateResults (s : TagVectorSystem M) (queryVector : SparseVector)
    (f : Option (IFilter M)) : List QueryResult :=
  ((s.itemVectors.filter (fun e => passFilter f (mget s.itemMeta e.1))).map
      (fun e => QueryResult.mk e.1 (cosineSimilarity queryVector e.2))).filter
    (fun r => decide (0 < r.similarity))

/-- The full ranked result list recomputed by `query` on a cache miss. -/
noncomputable def computeResults (s : TagVectorSystem M) (queryVector : SparseVector)
    (f : Option (IFilter M)) : List QueryResult :=
  sortDesc (candidateResults s queryVector f)

/-- `sortedResults.slice((page - 1) * size, page * size)`. -/
def slicePage (l : List QueryResult) (page size : ℕ) : List QueryResult :=
  (l.drop ((page - 1) * size)).take size

/-- `query(queryTags, options)` from the source.  `generateQueryHash` sorts
the caller's array in place before anything else, so the vector is encoded
from the sorted tags; the third component of the result is the caller's
array as `query` leaves it. -/
noncomputable def query (s : TagVectorSystem M) (queryTags : List Tag)
    (options : QueryOptions M) :
    List QueryResult × TagVectorSystem M × List Tag :=
  let sortedTags := generateQueryHash queryTags
  if s.isCacheValid sortedTags options.filter then
    match s.queryCache with
    | some c => (slicePage c.sortedResults options.page options.size, s, sortedTags)
    | none => ([], s, sortedTags)
  else
    let res := s.computeResults (s.encodeToSparseVector sortedTags) options.filter
    (slicePage res options.page options.size,
      { s with queryCache := some ⟨sortedTags, res, options.filter⟩ },
      sortedTags)

/-- `queryFirst(queryTags, filter)` from the source: a fold tracking
`maxSimilarity` (initially `-1`) and `bestMatch`, updated when
`similarity > maxSimilarity && similarity > 0`.  It does not sort the tags
and does not consult or update the cache. -/
noncomputable def queryFirst (s : TagVectorSystem M) (queryTags : List Tag)
    (f : Option (IFilter M)) : Option QueryResult :=
  let queryVector := s.encodeToSparseVector queryTags
  (s.itemVectors.foldl
    (fun acc e =>
      if passFilter f (mget s.itemMeta e.1) then
        let similarity := cosineSimilarity queryVector e.2
        if acc.1 < similarity ∧ 0 < similarity then (similarity, some ⟨e.1, similarity⟩)
        else acc
      else acc)
    ((-1 : ℝ), (none : Option QueryResult))).2

end TagVectorSystem

/-- Specification-side observer: the first element of a result list that
attains the maximum similarity (`none` on the empty list).  Both the head of
the stable descending sort and the `queryFirst` fold compute this value. -/
noncomputable def firstMax : List QueryResult → Option QueryResult
  | [] => none
  | x :: xs =>
    match firstMax xs with
    | none => some x
    | some y => if x.similarity < y.similarity then some y else some x

/-- The accumulator step of the `queryFirst` fold, on an already-scored
result. -/
noncomputable def qfStep (acc : ℝ × Option QueryResult) (r : QueryResult) :
    ℝ × Option QueryResult :=
  if acc.1 < r.similarity ∧ 0 < r.similarity then (r.similarity, some r) else acc

/-- Folding `qfStep` over a list amounts to comparing the accumulator with
the list's first maximum. -/
noncomputable def combineFull (acc : ℝ × Option QueryResult) :
    Option QueryResult → ℝ × Option QueryResult
  | none => acc
  | some x => if acc.1 < x.similarity then (x.similarity, some x) else acc

/-- Well-formedness of a state's maps: pairwise-distinct keys at every
level, as holds for every state reachable through the class's operations
(JS `Map`s and objects cannot contain a duplicate key). -/
def WFkeys {M : Type} (s : TagVectorSystem M) : Prop :=
  (keysOf s.categoryMap).Nodup ∧
  (∀ e ∈ s.categoryMap, (keysOf e.2).Nodup) ∧
  (keysOf s.itemVectors).Nodup ∧
  (∀ e ∈ s.itemVectors, (keysOf e.2).Nodup) ∧
  (keysOf s.categoryWeights).Nodup

instance {M : Type} (s : TagVectorSystem M) : Decidable (WFkeys s) := by
  unfold WFkeys
  infer_instance

section MapLemmas

variable {κ ν : Type} [DecidableEq κ]

theorem mget_mset (m : List (κ × ν)) (k : κ) (v : ν) (c : κ) :
    mget (mset m k v) c = if k = c then some v else mget m c := by
  induction m with
  | nil => simp [mget, mset]
  | cons e rest ih =>
    by_cases hek : e.1 = k
    · simp only [mset, if_pos hek, mget]
      by_cases hkc : k = c
      · simp [hkc]
      · have hec : ¬ e.1 = c := by
          rw [hek]
          exact hkc
        simp [hkc, hec, mget]
    · simp only [mset, if_neg hek, mget]
      by_cases hec : e.1 = c
      · have hkc : ¬ k = c := by
          intro hkc
          exact hek (hkc ▸ hec)
        simp [hec, hkc]
      · simp [hec, ih]

theorem mget_mset_self (m : List (κ × ν)) (k : κ) (v : ν) :
    mget (mset m k v) k = some v := by
  simp [mget_mset]

theorem mget_mset_ne (m : List (κ × ν)) (k : κ) (v : ν) (c : κ) (h : ¬ k = c) :
    mget (mset m k v) c = mget m c := by
  simp [mget_mset, h]

theorem keysOf_mset_of_mem (m : List (κ × ν)) (k : κ) (v : ν)
    (h : k ∈ keysOf m) : keysOf (mset m k v) = keysOf m := by
  induction m with
  | nil => cases h
  | cons e rest ih =>
    by_cases hek : e.1 = k
    · simp [mset, hek, keysOf]
    · have hmem : k ∈ keysOf rest := by
        have h' : k = e.1 ∨ k ∈ keysOf rest := by simpa [keysOf] using h
        rcases h' with h₁ | h₂
        · exact absurd h₁.symm hek
        · exact h₂
      have ih' := ih hmem
      simp only [mset, if_neg hek, keysOf, List.map_cons]
      simp only [keysOf] at ih'
      rw [ih']

theorem keysOf_mset_of_not_mem (m : List (κ × ν)) (k : κ) (v : ν)
    (h : ¬ k ∈ keysOf m) : keysOf (mset m k v) = keysOf m ++ [k] := by
  induction m with
  | nil => simp [mset, keysOf]
  | cons e rest ih =>
    have hek : ¬ e.1 = k := by
      intro he
      exact h (by simp [keysOf, he])
    have hrest : ¬ k ∈ keysOf rest := by
      intro hk
      exact h (by simp [keysOf] at hk ⊢; right; exact hk)
    simp only [mset, if_neg hek, keysOf, List.map_cons, List.cons_append, List.cons.injEq,
      true_and]
    exact ih hrest

theorem nodup_keysOf_mset (m : List (κ × ν)) (k : κ) (v : ν)
    (h : (keysOf m).Nodup) : (keysOf (mset m k v)).Nodup := by
  by_cases hk : k ∈ keysOf m
  · rw [keysOf_mset_of_mem m k v hk]
    exact h
  · rw [keysOf_mset_of_not_mem m k v hk]
    simp [List.nodup_append, h, hk]

theorem mem_keysOf_of_mget_eq_some {m : List (κ × ν)} {k : κ} {v : ν}
    (h : mget m k = some v) : k ∈ keysOf m := by
  induction m with
  | nil => simp [mget] at h
  | cons e rest ih =>
    by_cases hek : e.1 = k
    · simp [keysOf, hek]
    · simp only [mget, if_neg hek] at h
      simp [keysOf]
      right
      have := ih h
      simpa [keysOf] using this

theorem mget_eq_some_of_mem {m : List (κ × ν)} {e : κ × ν}
    (hnd : (keysOf m).Nodup) (h : e ∈ m) : mget m e.1 = some e.2 := by
  induction m with
  | nil => cases h
  | cons f rest ih =>
    rcases List.mem_cons.mp h with h₁ | h₂
    · subst h₁
      simp [mget]
    · have hne : ¬ f.1 = e.1 := by
        intro hfe
        have : e.1 ∈ keysOf rest := List.mem_map_of_mem Prod.fst h₂
        rw [← hfe] at this
        simp [keysOf] at hnd
        exact absurd this (by simpa [keysOf] using hnd.1)
      have hnd' : (keysOf rest).Nodup := by
        simp [keysOf] at hnd ⊢
        exact hnd.2
      simp [mget, hne, ih hnd' h₂]

theorem mget_eq_none_of_not_mem {m : List (κ × ν)} {k : κ}
    (h : ¬ k ∈ keysOf m) : mget m k = none := by
  induction m with
  | nil => rfl
  | cons e rest ih =>
    have hek : ¬ e.1 = k := fun he => h (by simp [keysOf, he])
    have hrest : ¬ k ∈ keysOf rest := fun hk => h (by simp [keysOf] at hk ⊢; right; exact hk)
    simp [mget, hek, ih hrest]

theorem mget_map {ν' : Type} (m : List (κ × ν)) (g : ν → ν') (k : κ) :
    mget (m.map (fun e => (e.1, g e.2))) k = (mget m k).map g := by
  induction m with
  | nil => rfl
  | cons e rest ih =>
    by_cases hek : e.1 = k
    · simp [mget, hek]
    · simp [mget, hek, ih]

end MapLemmas

theorem mget_foldl_msetWeights (ws : List CategoryWeight) (m : List (String × ℚ))
    (c : String) :
    mget (ws.foldl (fun m w => mset m w.category (jsOr1 w.weight)) m) c =
      ws.foldl (fun r w => if w.category = c then some (jsOr1 w.weight) else r) (mget m c) := by
  induction ws generalizing m with
  | nil => rfl
  | cons w rest ih =>
    simp only [List.foldl_cons]
    rw [ih, mget_mset]

/-- Claim C1 (code bug): `buildIndex` is the one mutating operation that does
not clear the query cache.  After a query has populated the cache, running
`buildIndex` leaves the stale entry in place instead of the EMPTY state the
specification demands. -/
theorem c1_buildIndex_leaves_stale_cache :
    ((((TagVectorSystem.new Bool).query [⟨"b", "z", 1⟩] ⟨1, 10, none⟩).2.1.buildIndex
        [⟨"b", "z"⟩]).queryCache) ≠ none := by
  have h : ((((TagVectorSystem.new Bool).query [⟨"b", "z", 1⟩] ⟨1, 10, none⟩).2.1.buildIndex
      [⟨"b", "z"⟩]).queryCache) = some ⟨[⟨"b", "z", 1⟩], [], none⟩ := rfl
  rw [h]
  simp

/-- Claim C2 (code bug): `buildIndex` does not reset the prior index.  After
`buildIndex [("a","x")]` followed by `buildIndex [("a","y")]`, the old pair
`("a","x")` still maps to dimension 0, the new pair `("a","y")` collides
with it at dimension 0, and `vectorSize` is 1 — instead of the full
replacement (only `("a","y") ↦ 0`) that the claim describes. -/
theorem c2_buildIndex_merges_old_mappings :
    (((TagVectorSystem.new Bool).buildIndex [⟨"a", "x"⟩]).buildIndex [⟨"a", "y"⟩]).dimOf
        "a" "x" = some 0 ∧
    (((TagVectorSystem.new Bool).buildIndex [⟨"a", "x"⟩]).buildIndex [⟨"a", "y"⟩]).dimOf
        "a" "y" = some 0 ∧
    (((TagVectorSystem.new Bool).buildIndex [⟨"a", "x"⟩]).buildIndex [⟨"a", "y"⟩]).vectorSize
      = 1 := by
  decide

/-- Claim C4, counterexample: an entry with an undefined weight is not
skipped — `setCategoryWeights [{category := "c"}]` overwrites a previously
stored weight 5 with the default 1. -/
theorem c4_counterexample_undefined_overwrites :
    mget (((TagVectorSystem.new Bool).setCategoryWeight "c" 5).setCategoryWeights
        [⟨"c", none⟩]).categoryWeights "c" = some 1 ∧
    (some (1 : ℚ) ≠ some (5 : ℚ)) := by
  decide

/-- Claim C4 (amended): `setCategoryWeights` stores `weight || 1` for every
entry, last entry per category winning: an entry with an undefined weight
(or a weight of 0) sets the category's stored weight to the default 1,
overwriting any previous value; other defined weights are stored exactly.
Categories not mentioned in the list keep their previous stored weight. -/
theorem c4_setCategoryWeights_stores_weight_or_one (s : TagVectorSystem Bool)
    (ws : List CategoryWeight) (c : String) :
    mget (s.setCategoryWeights ws).categoryWeights c =
      ws.foldl
        (fun r w =>
          if w.category = c then
            some (match w.weight with
              | none => 1
              | some x => if x = 0 then 1 else x)
          else r)
        (mget s.categoryWeights c) := by
  show mget (ws.foldl (fun m w => mset m w.category (jsOr1 w.weight)) s.categoryWeights) c = _
  rw [mget_foldl_msetWeights]
  rfl

/-- Claim C5, counterexample: a stored weight of 0 is not returned —
`getCategoryWeight` masks it to 1. -/
theorem c5_counterexample_zero_weight_masked :
    ((TagVectorSystem.new Bool).setCategoryWeight "c" 0).getCategoryWeight "c" = 1 ∧
    ((1 : ℚ) ≠ 0) := by
  decide

/-- Claim C5 (amended): `getCategoryWeight` returns the stored weight when it
is nonzero, returns 1 for a category that was never weighted, and returns 1
(not 0) for a category whose stored weight is 0. -/
theorem c5_getCategoryWeight (s : TagVectorSystem Bool) (c : String) (w : ℚ) :
    (w ≠ 0 → (s.setCategoryWeight c w).getCategoryWeight c = w) ∧
    (mget s.categoryWeights c = none → s.getCategoryWeight c = 1) ∧
    (s.setCategoryWeight c 0).getCategoryWeight c = 1 := by
  refine ⟨fun hw => ?_, fun h0 => ?_, ?_⟩
  · show jsOr1 (mget (mset s.categoryWeights c w) c) = w
    rw [mget_mset_self]
    simp [jsOr1, hw]
  · show jsOr1 (mget s.categoryWeights c) = 1
    rw [h0]
    rfl
  · show jsOr1 (mget (mset s.categoryWeights c 0) c) = 1
    rw [mget_mset_self]
    rfl

/-- Claim C5, witness for the amended theorem at concrete inputs. -/
theorem c5_getCategoryWeight_witness :
    ((TagVectorSystem.new Bool).setCategoryWeight "c" 5).getCategoryWeight "c" = 5 ∧
    (TagVectorSystem.new Bool).getCategoryWeight "c" = 1 ∧
    ((TagVectorSystem.new Bool).setCategoryWeight "c" 0).getCategoryWeight "c" = 1 := by
  refine ⟨(c5_getCategoryWeight (TagVectorSystem.new Bool) "c" 5).1 (by norm_num),
    (c5_getCategoryWeight (TagVectorSystem.new Bool) "c" 5).2.1 rfl,
    (c5_getCategoryWeight (TagVectorSystem.new Bool) "c" 5).2.2⟩

theorem addItem_itemVectors (s : TagVectorSystem Bool) (t : ItemTags Bool) :
    (s.addItem t).itemVectors = mset s.itemVectors t.id (s.encodeToSparseVector t.tags) :=
  rfl

theorem addItem_itemMeta (s : TagVectorSystem Bool) (t : ItemTags Bool) :
    (s.addItem t).itemMeta =
      match t.meta with
      | some m => mset s.itemMeta t.id m
      | none => s.itemMeta := by
  cases t with
  | mk i tg mt => cases mt <;> rfl

/-- Claim C6, counterexample: re-adding an item id without `meta` does not
clear the stored metadata — the first call's metadata survives the second
`addItem`, while the claim says the metadata becomes exactly the second
call's (absent) meta. -/
theorem c6_counterexample_meta_survives :
    mget ((((TagVectorSystem.new Bool).buildIndex [⟨"a", "x"⟩]).addItem
          ⟨"i", [⟨"a", "x", 1⟩], some true⟩).addItem
          ⟨"i", [⟨"a", "x", 2⟩], none⟩).itemMeta "i" = some true ∧
    (some true ≠ (none : Option Bool)) := by
  constructor
  · rfl
  · simp

/-- Claim C6 (amended): re-adding the same id leaves exactly one vector for
it, equal to the encoding of the second call's tags; the metadata becomes
the second call's meta when one is provided, and otherwise keeps whatever
metadata the id had after the first call (`itemMeta` is only written when
`meta` is present). -/
theorem c6_readd_overwrites (base : TagVectorSystem Bool) (t1 t2 : ItemTags Bool)
    (_hid : t1.id = t2.id) (hnd : (keysOf base.itemVectors).Nodup) :
    mget ((base.addItem t1).addItem t2).itemVectors t2.id
        = some ((base.addItem t1).encodeToSparseVector t2.tags) ∧
    (keysOf ((base.addItem t1).addItem t2).itemVectors).count t2.id = 1 ∧
    mget ((base.addItem t1).addItem t2).itemMeta t2.id
        = (match t2.meta with
           | some m => some m
           | none => mget (base.addItem t1).itemMeta t2.id) := by
  have hvec : mget ((base.addItem t1).addItem t2).itemVectors t2.id
      = some ((base.addItem t1).encodeToSparseVector t2.tags) := by
    rw [addItem_itemVectors]
    exact mget_mset_self _ _ _
  refine ⟨hvec, ?_, ?_⟩
  · have hnd2 : (keysOf ((base.addItem t1).addItem t2).itemVectors).Nodup := by
      rw [addItem_itemVectors, addItem_itemVectors]
      exact nodup_keysOf_mset _ _ _ (nodup_keysOf_mset _ _ _ hnd)
    exact List.count_eq_one_of_mem hnd2 (mem_keysOf_of_mget_eq_some hvec)
  · rw [addItem_itemMeta]
    cases t2.meta with
    | none => rfl
    | some m => exact mget_mset_self _ _ _

/-- Claim C6, witness for the amended theorem at concrete inputs (second
call without meta). -/
theorem c6_readd_overwrites_witness :
    (keysOf ((TagVectorSystem.new Bool).buildIndex [⟨"a", "x"⟩, ⟨"a", "y"⟩]).itemVectors).Nodup ∧
    (mget ((((TagVectorSystem.new Bool).buildIndex [⟨"a", "x"⟩, ⟨"a", "y"⟩]).addItem
          ⟨"i", [⟨"a", "x", 1⟩], some true⟩).addItem ⟨"i", [⟨"a", "y", 1⟩], none⟩).itemVectors "i"
        = some ((((TagVectorSystem.new Bool).buildIndex [⟨"a", "x"⟩, ⟨"a", "y"⟩]).addItem
          ⟨"i", [⟨"a", "x", 1⟩], some true⟩).encodeToSparseVector [⟨"a", "y", 1⟩]) ∧
      (keysOf ((((TagVectorSystem.new Bool).buildIndex [⟨"a", "x"⟩, ⟨"a", "y"⟩]).addItem
          ⟨"i", [⟨"a", "x", 1⟩], some true⟩).addItem ⟨"i", [⟨"a", "y", 1⟩], none⟩).itemVectors).count "i" = 1 ∧
      mget ((((TagVectorSystem.new Bool).buildIndex [⟨"a", "x"⟩, ⟨"a", "y"⟩]).addItem
          ⟨"i", [⟨"a", "x", 1⟩], some true⟩).addItem ⟨"i", [⟨"a", "y", 1⟩], none⟩).itemMeta "i"
        = mget (((TagVectorSystem.new Bool).buildIndex [⟨"a", "x"⟩, ⟨"a", "y"⟩]).addItem
          ⟨"i", [⟨"a", "x", 1⟩], some true⟩).itemMeta "i") := by
  refine ⟨by decide, ?_⟩
  exact c6_readd_overwrites ((TagVectorSystem.new Bool).buildIndex [⟨"a", "x"⟩, ⟨"a", "y"⟩])
    ⟨"i", [⟨"a", "x", 1⟩], some true⟩ ⟨"i", [⟨"a", "y", 1⟩], none⟩ rfl (by decide)

/-- Claim C8: the query hash is invariant under permutation of the tag
list — sorting by the total, antisymmetric-up-to-equality comparator sends
any two permutations of the same tags to the same sorted list, hence to the
same serialized hash. -/
theorem c8_queryHash_perm_invariant (l₁ l₂ : List Tag) (h : l₁.Perm l₂) :
    generateQueryHash l₁ = generateQueryHash l₂ := by
  refine List.eq_of_perm_of_sorted ?_ (List.sorted_insertionSort tagLE l₁)
    (List.sorted_insertionSort tagLE l₂)
  exact (List.perm_insertionSort tagLE l₁).trans (h.trans (List.perm_insertionSort tagLE l₂).symm)

/-- Claim C8, witness at a concrete permuted pair. -/
theorem c8_queryHash_perm_invariant_witness :
    ([⟨"b", "y", 1⟩, ⟨"a", "x", 2⟩] : List Tag).Perm [⟨"a", "x", 2⟩, ⟨"b", "y", 1⟩] ∧
    generateQueryHash [⟨"b", "y", 1⟩, ⟨"a", "x", 2⟩]
      = generateQueryHash [⟨"a", "x", 2⟩, ⟨"b", "y", 1⟩] :=
  ⟨by decide, c8_queryHash_perm_invariant _ _ (by decide)⟩

theorem query_tagsOut {M : Type} (s : TagVectorSystem M) (tags : List Tag)
    (o : QueryOptions M) : (s.query tags o).2.2 = tagSort tags := by
  simp only [TagVectorSystem.query, generateQueryHash]
  split
  · split <;> rfl
  · rfl

/-- Claim C10: `query` sorts the caller's `queryTags` array in place via
`generateQueryHash`, so the array the caller holds after `query` returns is
the sorted permutation of what was passed in (and for some inputs — here a
list given in descending order — it is genuinely reordered).  Nothing else
outside the system's own state is touched. -/
theorem c10_query_mutates_caller_tags :
    (∀ (M : Type) (s : TagVectorSystem M) (tags : List Tag) (o : QueryOptions M),
        ((s.query tags o).2.2).Perm tags) ∧
    ((TagVectorSystem.new Bool).query [⟨"b", "y", 1⟩, ⟨"a", "x", 1⟩] ⟨1, 10, none⟩).2.2
      ≠ [⟨"b", "y", 1⟩, ⟨"a", "x", 1⟩] := by
  constructor
  · intro M s tags o
    rw [query_tagsOut]
    exact List.perm_insertionSort tagLE tags
  · rw [query_tagsOut]
    decide

theorem jsOr1_ne_zero (x : Option ℚ) : jsOr1 x ≠ 0 := by
  cases x with
  | none => simp [jsOr1]
  | some w =>
    by_cases hw : w = 0 <;> simp [jsOr1, hw]

theorem mem_mset {κ ν : Type} [DecidableEq κ] {m : List (κ × ν)} {k : κ} {v : ν}
    {e : κ × ν} (h : e ∈ mset m k v) : e ∈ m ∨ e = (k, v) := by
  induction m with
  | nil =>
    simp [mset] at h
    right
    exact h
  | cons f rest ih =>
    by_cases hfk : f.1 = k
    · simp only [mset, if_pos hfk] at h
      rcases List.mem_cons.mp h with h₁ | h₂
      · right
        exact h₁
      · left
        exact List.mem_cons_of_mem f h₂
    · simp only [mset, if_neg hfk] at h
      rcases List.mem_cons.mp h with h₁ | h₂
      · left
        exact h₁ ▸ List.mem_cons_self f rest
      · rcases ih h₂ with h₃ | h₄
        · left
          exact List.mem_cons_of_mem f h₃
        · right
          exact h₄

theorem encode_values_ne_zero {M : Type} (s : TagVectorSystem M) (tags : List Tag) :
    ∀ e ∈ s.encodeToSparseVector tags, e.2 ≠ 0 := by
  show ∀ e ∈ tags.foldl _ ([] : SparseVector), e.2 ≠ 0
  generalize hacc : ([] : SparseVector) = acc
  have hbase : ∀ e ∈ acc, e.2 ≠ (0 : ℚ) := by
    intro e he
    rw [← hacc] at he
    cases he
  clear hacc
  induction tags generalizing acc with
  | nil => exact hbase
  | cons t rest ih =>
    simp only [List.foldl_cons]
    apply ih
    cases hcm : mget s.categoryMap t.category with
    | none =>
      simp only [hcm]
      exact hbase
    | some valueMap =>
      cases hvm : mget valueMap t.value with
      | none =>
        simp only [hcm, hvm]
        exact hbase
      | some position =>
        simp only [hcm, hvm]
        by_cases hconf : (0 : ℚ) < t.confidence
        · rw [if_pos hconf]
          intro e he
          rcases mem_mset he with h₁ | h₂
          · exact hbase e h₁
          · rw [h₂]
            exact mul_ne_zero (ne_of_gt hconf) (jsOr1_ne_zero _)
        · rw [if_neg hconf]
          exact hbase

theorem encode_keys_nodup {M : Type} (s : TagVectorSystem M) (tags : List Tag) :
    (keysOf (s.encodeToSparseVector tags)).Nodup := by
  show (keysOf (tags.foldl _ ([] : SparseVector))).Nodup
  generalize hacc : ([] : SparseVector) = acc
  have hbase : (keysOf acc).Nodup := by
    rw [← hacc]
    simp [keysOf]
  clear hacc
  induction tags generalizing acc with
  | nil => exact hbase
  | cons t rest ih =>
    simp only [List.foldl_cons]
    apply ih
    cases hcm : mget s.categoryMap t.category with
    | none =>
      simp only [hcm]
      exact hbase
    | some valueMap =>
      cases hvm : mget valueMap t.value with
      | none =>
        simp only [hcm, hvm]
        exact hbase
      | some position =>
        simp only [hcm, hvm]
        by_cases hconf : (0 : ℚ) < t.confidence
        · rw [if_pos hconf]
          exact nodup_keysOf_mset _ _ _ hbase
        · rw [if_neg hconf]
          exact hbase

theorem dotSum_self (v : SparseVector) (hnd : (keysOf v).Nodup) :
    dotSum v v = normSq v := by
  unfold dotSum normSq
  congr 1
  apply List.map_congr_left
  intro e he
  have h : mget v e.1 = some e.2 := mget_eq_some_of_mem hnd he
  simp [get0, h]

theorem normSq_nonneg (v : SparseVector) : 0 ≤ normSq v := by
  apply List.sum_nonneg
  intro x hx
  rcases List.mem_map.mp hx with ⟨e, _, he⟩
  rw [← he]
  exact mul_self_nonneg _

theorem normSq_pos (v : SparseVector) (hne : v ≠ [])
    (hnz : ∀ e ∈ v, e.2 ≠ 0) : 0 < normSq v := by
  cases v with
  | nil => exact absurd rfl hne
  | cons e rest =>
    have he : (e.2 : ℝ) ≠ 0 := by
      exact_mod_cast hnz e (List.mem_cons_self e rest)
    have hpos : 0 < (e.2 : ℝ) * (e.2 : ℝ) := mul_self_pos.mpr he
    have hrest : 0 ≤ normSq rest := normSq_nonneg rest
    unfold normSq at hrest ⊢
    simp only [List.map_cons, List.sum_cons]
    linarith

/-- Self-similarity of a nonzero sparse vector with pairwise-distinct keys
is exactly 1. -/
theorem cosineSimilarity_self (v : SparseVector) (hnd : (keysOf v).Nodup)
    (hnz : ∀ e ∈ v, e.2 ≠ 0) (hne : v ≠ []) :
    cosineSimilarity v v = 1 := by
  have hpos : 0 < normSq v := normSq_pos v hne hnz
  have hsqrt : Real.sqrt (normSq v) ≠ 0 := ne_of_gt (Real.sqrt_pos.mpr hpos)
  unfold cosineSimilarity
  rw [if_neg (by simp [hsqrt])]
  rw [dotSum_self v hnd, Real.mul_self_sqrt (le_of_lt hpos)]
  exact div_self (ne_of_gt hpos)

/-- Claim C9, counterexample: a non-empty tag list whose tags are not in the
category index encodes to the empty vector, whose self-similarity is 0, not
1. -/
theorem c9_counterexample_unindexed_tags :
    ([⟨"a", "x", 1⟩] : List Tag) ≠ [] ∧
    cosineSimilarity ((TagVectorSystem.new Bool).encodeToSparseVector [⟨"a", "x", 1⟩])
        ((TagVectorSystem.new Bool).encodeToSparseVector [⟨"a", "x", 1⟩]) ≠ 1 := by
  constructor
  · simp
  · have henc : (TagVectorSystem.new Bool).encodeToSparseVector [⟨"a", "x", 1⟩]
        = ([] : SparseVector) := rfl
    rw [henc]
    have h0 : cosineSimilarity ([] : SparseVector) ([] : SparseVector) = 0 := by
      unfold cosineSimilarity
      rw [if_pos]
      left
      simp [normSq, Real.sqrt_zero]
    rw [h0]
    norm_num

/-- Claim C9 (amended): for every state and tag list whose encoding is a
non-empty sparse vector (at least one tag is indexed with positive
confidence), the cosine similarity of the encoding with itself is exactly 1
over exact arithmetic.  (A tag list may be non-empty and still encode to the
empty vector, whose self-similarity is 0 — see the counterexample.) -/
theorem c9_self_similarity {M : Type} (s : TagVectorSystem M) (tags : List Tag)
    (hne : s.encodeToSparseVector tags ≠ []) :
    cosineSimilarity (s.encodeToSparseVector tags) (s.encodeToSparseVector tags) = 1 :=
  cosineSimilarity_self _ (encode_keys_nodup s tags) (encode_values_ne_zero s tags) hne

/-- Claim C9, witness: a concrete indexed tag with confidence 1. -/
theorem c9_self_similarity_witness :
    ((TagVectorSystem.new Bool).buildIndex [⟨"a", "x"⟩]).encodeToSparseVector
        [⟨"a", "x", 1⟩] ≠ [] ∧
    cosineSimilarity
        (((TagVectorSystem.new Bool).buildIndex [⟨"a", "x"⟩]).encodeToSparseVector
          [⟨"a", "x", 1⟩])
        (((TagVectorSystem.new Bool).buildIndex [⟨"a", "x"⟩]).encodeToSparseVector
          [⟨"a", "x", 1⟩]) = 1 := by
  have hne : ((TagVectorSystem.new Bool).buildIndex [⟨"a", "x"⟩]).encodeToSparseVector
      [⟨"a", "x", 1⟩] ≠ [] := by
    norm_num [TagVectorSystem.encodeToSparseVector, TagVectorSystem.buildIndex,
      TagVectorSystem.new, mget, mset, jsOr1]
  exact ⟨hne, c9_self_similarity _ _ hne⟩

theorem head?_insertDesc (x : QueryResult) (l : List QueryResult) :
    (insertDesc x l).head? =
      match l.head? with
      | none => some x
      | some y => if x.similarity < y.similarity then some y else some x := by
  cases l with
  | nil => rfl
  | cons y ys =>
    simp only [insertDesc, List.head?_cons]
    split <;> rfl

theorem sortDesc_head? (l : List QueryResult) : (sortDesc l).head? = firstMax l := by
  induction l with
  | nil => rfl
  | cons x xs ih =>
    simp only [sortDesc, firstMax]
    rw [head?_insertDesc, ih]

theorem firstMax_cons_none {xs : List QueryResult} (x : QueryResult)
    (hm : firstMax xs = none) : firstMax (x :: xs) = some x := by
  unfold firstMax
  rw [hm]

theorem firstMax_cons_some {xs : List QueryResult} (x : QueryResult) {y : QueryResult}
    (hm : firstMax xs = some y) :
    firstMax (x :: xs) = if x.similarity < y.similarity then some y else some x := by
  unfold firstMax
  rw [hm]

theorem combineFull_none (acc : ℝ × Option QueryResult) : combineFull acc none = acc :=
  rfl

theorem combineFull_some (acc : ℝ × Option QueryResult) (x : QueryResult) :
    combineFull acc (some x) =
      if acc.1 < x.similarity then (x.similarity, some x) else acc :=
  rfl

theorem qfStep_of_pos {x : QueryResult} (hx : 0 < x.similarity)
    (acc : ℝ × Option QueryResult) :
    qfStep acc x = if acc.1 < x.similarity then (x.similarity, some x) else acc := by
  unfold qfStep
  by_cases hax : acc.1 < x.similarity
  · rw [if_pos ⟨hax, hx⟩, if_pos hax]
  · rw [if_neg (fun h => hax h.1), if_neg hax]

theorem firstMax_mem : ∀ {l : List QueryResult} {y : QueryResult},
    firstMax l = some y → y ∈ l := by
  intro l
  induction l with
  | nil =>
    intro y h
    cases h
  | cons x xs ih =>
    intro y h
    cases hm : firstMax xs with
    | none =>
      rw [firstMax_cons_none x hm] at h
      exact (Option.some.inj h) ▸ List.mem_cons_self x xs
    | some z =>
      rw [firstMax_cons_some x hm] at h
      by_cases hxz : x.similarity < z.similarity
      · rw [if_pos hxz] at h
        exact (Option.some.inj h) ▸ List.mem_cons_of_mem x (ih hm)
      · rw [if_neg hxz] at h
        exact (Option.some.inj h) ▸ List.mem_cons_self x xs

theorem foldl_scan_eq {M : Type} (meta : List (String × M)) (f : Option (IFilter M))
    (qv : SparseVector) (items : List (String × SparseVector)) :
    ∀ acc : ℝ × Option QueryResult,
    items.foldl
      (fun acc e =>
        if passFilter f (mget meta e.1) then
          let similarity := cosineSimilarity qv e.2
          if acc.1 < similarity ∧ 0 < similarity then (similarity, some ⟨e.1, similarity⟩)
          else acc
        else acc) acc
    = (((items.filter (fun e => passFilter f (mget meta e.1))).map
          (fun e => QueryResult.mk e.1 (cosineSimilarity qv e.2))).filter
        (fun r => decide (0 < r.similarity))).foldl qfStep acc := by
  induction items with
  | nil =>
    intro acc
    rfl
  | cons e rest ih =>
    intro acc
    by_cases hp : passFilter f (mget meta e.1) = true
    · by_cases hq : (0 : ℝ) < cosineSimilarity qv e.2
      · have hd : decide ((0:ℝ) < (QueryResult.mk e.1 (cosineSimilarity qv e.2)).similarity)
            = true := decide_eq_true hq
        simp only [List.foldl_cons, List.filter_cons, hp, if_true, List.map_cons, hd]
        rw [ih]
        rfl
      · have hd : decide ((0:ℝ) < (QueryResult.mk e.1 (cosineSimilarity qv e.2)).similarity)
            = false := decide_eq_false hq
        simp only [List.foldl_cons, List.filter_cons, hp, if_true, List.map_cons, hd,
          Bool.false_eq_true, if_false]
        rw [if_neg (fun h => hq h.2)]
        exact ih acc
    · have hp' : passFilter f (mget meta e.1) = false := by
        simpa using hp
      simp only [List.foldl_cons, List.filter_cons, hp', Bool.false_eq_true, if_false]
      exact ih acc

theorem foldl_qfStep_eq (l : List QueryResult) :
    ∀ acc : ℝ × Option QueryResult, (∀ r ∈ l, 0 < r.similarity) →
      l.foldl qfStep acc = combineFull acc (firstMax l) := by
  induction l with
  | nil =>
    intro acc _
    rfl
  | cons x xs ih =>
    intro acc hpos
    have hx : 0 < x.similarity := hpos x (List.mem_cons_self x xs)
    have hxs : ∀ r ∈ xs, 0 < r.similarity := fun r hr => hpos r (List.mem_cons_of_mem x hr)
    simp only [List.foldl_cons]
    rw [ih (qfStep acc x) hxs]
    cases hm : firstMax xs with
    | none =>
      rw [firstMax_cons_none x hm, combineFull_none, qfStep_of_pos hx, combineFull_some]
    | some y =>
      rw [firstMax_cons_some x hm, qfStep_of_pos hx]
      by_cases hax : acc.1 < x.similarity
      · rw [if_pos hax, combineFull_some]
        by_cases hxy : x.similarity < y.similarity
        · rw [if_pos (show (x.similarity, some x).1 < y.similarity from hxy), if_pos hxy,
            combineFull_some, if_pos (lt_trans hax hxy)]
        · rw [if_neg (show ¬ (x.similarity, some x).1 < y.similarity from hxy), if_neg hxy,
            combineFull_some, if_pos hax]
      · rw [if_neg hax, combineFull_some]
        by_cases hxy : x.similarity < y.similarity
        · rw [if_pos hxy, combineFull_some]
        · rw [if_neg hxy, combineFull_some]
          have hya : ¬ acc.1 < y.similarity := by
            intro hya
            have h1 : y.similarity ≤ x.similarity := le_of_not_lt hxy
            have h2 : x.similarity ≤ acc.1 := le_of_not_lt hax
            linarith
          rw [if_neg hya, if_neg hax]

theorem queryFirst_eq_firstMax {M : Type} (s : TagVectorSystem M) (tags : List Tag)
    (f : Option (IFilter M)) :
    s.queryFirst tags f = firstMax (s.candidateResults (s.encodeToSparseVector tags) f) := by
  have hpos : ∀ r ∈ s.candidateResults (s.encodeToSparseVector tags) f, 0 < r.similarity := by
    intro r hr
    exact of_decide_eq_true (List.mem_filter.mp hr).2
  show (s.itemVectors.foldl
      (fun acc e =>
        if passFilter f (mget s.itemMeta e.1) then
          let similarity := cosineSimilarity (s.encodeToSparseVector tags) e.2
          if acc.1 < similarity ∧ 0 < similarity then (similarity, some ⟨e.1, similarity⟩)
          else acc
        else acc)
      ((-1 : ℝ), (none : Option QueryResult))).2
    = firstMax (s.candidateResults (s.encodeToSparseVector tags) f)
  rw [foldl_scan_eq s.itemMeta f (s.encodeToSparseVector tags) s.itemVectors]
  show ((s.candidateResults (s.encodeToSparseVector tags) f).foldl qfStep
      ((-1 : ℝ), (none : Option QueryResult))).2
    = firstMax (s.candidateResults (s.encodeToSparseVector tags) f)
  rw [foldl_qfStep_eq (s.candidateResults (s.encodeToSparseVector tags) f)
    ((-1 : ℝ), (none : Option QueryResult)) hpos]
  cases hm : firstMax (s.candidateResults (s.encodeToSparseVector tags) f) with
  | none => rfl
  | some x =>
    have hx : 0 < x.similarity := hpos x (firstMax_mem hm)
    rw [combineFull_some,
      if_pos (show ((-1 : ℝ), (none : Option QueryResult)).1 < x.similarity by
        simp only
        linarith)]

theorem isCacheValid_of_none {M : Type} (s : TagVectorSystem M) (h : List Tag)
    (f : Option (IFilter M)) (hc : s.queryCache = none) :
    s.isCacheValid h f = false := by
  unfold TagVectorSystem.isCacheValid
  rw [hc]

theorem query_results_of_cache_none {M : Type} (s : TagVectorSystem M) (tags : List Tag)
    (o : QueryOptions M) (hc : s.queryCache = none) :
    (s.query tags o).1
      = TagVectorSystem.slicePage (s.computeResults (s.encodeToSparseVector (tagSort tags)) o.filter)
          o.page o.size := by
  have hic : s.isCacheValid (generateQueryHash tags) o.filter = false :=
    isCacheValid_of_none s _ o.filter hc
  simp only [TagVectorSystem.query, hic, Bool.false_eq_true, if_false]
  rfl

theorem head?_take_one (l : List QueryResult) : (l.take 1).head? = l.head? := by
  cases l <;> rfl

/-- Claim C7 (amended): whenever the query cache is empty and sorting the
tag list does not change its encoding (as holds in particular when no two
tags share a `(category, value)` pair), `queryFirst(tags, filter)` agrees
with the first element of `query(tags, {page:1, size:1, filter})`, and is
`null` exactly when that query is empty.  (With a stale cache — reachable
because `buildIndex` does not clear it — or with duplicate `(category,
value)` tags, whose last-write-wins encoding depends on the order `query`
sorts away, the two can differ; see the counterexample.) -/
theorem c7_queryFirst_matches_query {M : Type} (s : TagVectorSystem M) (tags : List Tag)
    (f : Option (IFilter M)) (hc : s.queryCache = none)
    (he : s.encodeToSparseVector (tagSort tags) = s.encodeToSparseVector tags) :
    s.queryFirst tags f = ((s.query tags ⟨1, 1, f⟩).1).head? := by
  rw [query_results_of_cache_none s tags ⟨1, 1, f⟩ hc, he]
  rw [queryFirst_eq_firstMax, ← sortDesc_head?]
  show (sortDesc (s.candidateResults (s.encodeToSparseVector tags) f)).head?
    = (TagVectorSystem.slicePage (sortDesc (s.candidateResults (s.encodeToSparseVector tags) f)) 1 1).head?
  unfold TagVectorSystem.slicePage
  rw [show (1 - 1) * 1 = 0 from rfl, List.drop_zero, head?_take_one]

/-- Claim C7, witness for the amended theorem: one indexed item, empty
cache, a single-tag query. -/
theorem c7_queryFirst_matches_query_witness :
    ((((TagVectorSystem.new Bool).buildIndex [⟨"a", "x"⟩]).addItem
        ⟨"i1", [⟨"a", "x", 1⟩], none⟩).queryCache = none) ∧
    ((((TagVectorSystem.new Bool).buildIndex [⟨"a", "x"⟩]).addItem
          ⟨"i1", [⟨"a", "x", 1⟩], none⟩).encodeToSparseVector (tagSort [⟨"a", "x", 1⟩])
        = (((TagVectorSystem.new Bool).buildIndex [⟨"a", "x"⟩]).addItem
          ⟨"i1", [⟨"a", "x", 1⟩], none⟩).encodeToSparseVector [⟨"a", "x", 1⟩]) ∧
    ((((TagVectorSystem.new Bool).buildIndex [⟨"a", "x"⟩]).addItem
          ⟨"i1", [⟨"a", "x", 1⟩], none⟩).queryFirst [⟨"a", "x", 1⟩] none
        = (((((TagVectorSystem.new Bool).buildIndex [⟨"a", "x"⟩]).addItem
          ⟨"i1", [⟨"a", "x", 1⟩], none⟩).query [⟨"a", "x", 1⟩] ⟨1, 1, none⟩).1).head?) :=
  ⟨rfl, rfl,
    c7_queryFirst_matches_query (((TagVectorSystem.new Bool).buildIndex [⟨"a", "x"⟩]).addItem
      ⟨"i1", [⟨"a", "x", 1⟩], none⟩) [⟨"a", "x", 1⟩] none rfl rfl⟩

theorem cosineSimilarity_nil_left (v : SparseVector) :
    cosineSimilarity ([] : SparseVector) v = 0 := by
  unfold cosineSimilarity
  rw [if_pos (Or.inl (show Real.sqrt (normSq ([] : SparseVector)) = 0 by
    unfold normSq
    simp))]

/-- Claim C7, counterexample: `buildIndex` after a query leaves a stale
cache (see C1), and `query` then answers from it while `queryFirst` always
recomputes.  Concretely: index `("a","x")`, add item `i1` on it, query for
the unindexed tag `("b","z")` (cached result: empty), then `buildIndex
[("b","z")]`.  Now `queryFirst` finds `i1` with similarity 1, while
`query(page 1, size 1)` still returns the stale empty page, so the two
disagree. -/
theorem c7_counterexample_stale_cache :
    (((((TagVectorSystem.new Bool).buildIndex [⟨"a", "x"⟩]).addItem
          ⟨"i1", [⟨"a", "x", 1⟩], none⟩).query [⟨"b", "z", 1⟩] ⟨1, 10, none⟩).2.1.buildIndex
          [⟨"b", "z"⟩]).queryFirst [⟨"b", "z", 1⟩] none
    ≠ ((((((TagVectorSystem.new Bool).buildIndex [⟨"a", "x"⟩]).addItem
          ⟨"i1", [⟨"a", "x", 1⟩], none⟩).query [⟨"b", "z", 1⟩] ⟨1, 10, none⟩).2.1.buildIndex
          [⟨"b", "z"⟩]).query [⟨"b", "z", 1⟩] ⟨1, 1, none⟩).1.head? := by
  have hqf : (((((TagVectorSystem.new Bool).buildIndex [⟨"a", "x"⟩]).addItem
        ⟨"i1", [⟨"a", "x", 1⟩], none⟩).query [⟨"b", "z", 1⟩] ⟨1, 10, none⟩).2.1.buildIndex
        [⟨"b", "z"⟩]).queryFirst [⟨"b", "z", 1⟩] none = some ⟨"i1", 1⟩ := by
    rw [queryFirst_eq_firstMax]
    rw [show (((((TagVectorSystem.new Bool).buildIndex [⟨"a", "x"⟩]).addItem
          ⟨"i1", [⟨"a", "x", 1⟩], none⟩).query [⟨"b", "z", 1⟩] ⟨1, 10, none⟩).2.1.buildIndex
          [⟨"b", "z"⟩]).encodeToSparseVector [⟨"b", "z", 1⟩] = [(0, (1:ℚ) * 1)] from rfl]
    unfold TagVectorSystem.candidateResults
    rw [show (((((TagVectorSystem.new Bool).buildIndex [⟨"a", "x"⟩]).addItem
          ⟨"i1", [⟨"a", "x", 1⟩], none⟩).query [⟨"b", "z", 1⟩] ⟨1, 10, none⟩).2.1.buildIndex
          [⟨"b", "z"⟩]).itemVectors = [("i1", [(0, (1:ℚ) * 1)])] from rfl]
    rw [show (((((TagVectorSystem.new Bool).buildIndex [⟨"a", "x"⟩]).addItem
          ⟨"i1", [⟨"a", "x", 1⟩], none⟩).query [⟨"b", "z", 1⟩] ⟨1, 10, none⟩).2.1.buildIndex
          [⟨"b", "z"⟩]).itemMeta = ([] : List (String × Bool)) from rfl]
    simp only [List.filter_cons, List.filter_nil, passFilter, List.map_cons, List.map_nil,
      if_true]
    have hsim : cosineSimilarity [(0, (1:ℚ) * 1)] [(0, (1:ℚ) * 1)] = 1 := by
      apply cosineSimilarity_self
      · decide
      · intro e he
        simp only [List.mem_singleton] at he
        rw [he]
        norm_num
      · simp
    rw [hsim]
    rw [show (decide ((0:ℝ) < (QueryResult.mk "i1" 1).similarity)) = true from
      decide_eq_true (by norm_num)]
    rfl
  have hres : (((TagVectorSystem.new Bool).buildIndex [⟨"a", "x"⟩]).addItem
      ⟨"i1", [⟨"a", "x", 1⟩], none⟩).computeResults ([] : SparseVector) none = [] := by
    unfold TagVectorSystem.computeResults TagVectorSystem.candidateResults
    rw [show (((TagVectorSystem.new Bool).buildIndex [⟨"a", "x"⟩]).addItem
          ⟨"i1", [⟨"a", "x", 1⟩], none⟩).itemVectors = [("i1", [(0, (1:ℚ) * 1)])] from rfl]
    rw [show (((TagVectorSystem.new Bool).buildIndex [⟨"a", "x"⟩]).addItem
          ⟨"i1", [⟨"a", "x", 1⟩], none⟩).itemMeta = ([] : List (String × Bool)) from rfl]
    simp only [List.filter_cons, List.filter_nil, passFilter, List.map_cons, List.map_nil,
      if_true]
    rw [cosineSimilarity_nil_left]
    rw [show (decide ((0:ℝ) < (QueryResult.mk "i1" 0).similarity)) = false from
      decide_eq_false (by norm_num)]
    rfl
  have hq : ((((((TagVectorSystem.new Bool).buildIndex [⟨"a", "x"⟩]).addItem
        ⟨"i1", [⟨"a", "x", 1⟩], none⟩).query [⟨"b", "z", 1⟩] ⟨1, 10, none⟩).2.1.buildIndex
        [⟨"b", "z"⟩]).query [⟨"b", "z", 1⟩] ⟨1, 1, none⟩).1
      = TagVectorSystem.slicePage ((((TagVectorSystem.new Bool).buildIndex
          [⟨"a", "x"⟩]).addItem ⟨"i1", [⟨"a", "x", 1⟩], none⟩).computeResults
          ([] : SparseVector) none) 1 1 := rfl
  rw [hqf, hq, hres]
  simp [TagVectorSystem.slicePage]

theorem mget_append {κ ν : Type} [DecidableEq κ] (a b : List (κ × ν)) (k : κ) :
    mget (a ++ b) k =
      match mget a k with
      | some v => some v
      | none => mget b k := by
  induction a with
  | nil => rfl
  | cons e rest ih =>
    by_cases hek : e.1 = k
    · simp [mget, hek]
    · simp [mget, hek, ih]

theorem mset_append_of_none {κ ν : Type} [DecidableEq κ] {m : List (κ × ν)} {k : κ}
    (v : ν) (h : mget m k = none) : mset m k v = m ++ [(k, v)] := by
  induction m with
  | nil => rfl
  | cons e rest ih =>
    have hek : ¬ e.1 = k := by
      intro he
      simp [mget, he] at h
    simp only [mget, if_neg hek] at h
    simp [mset, hek, ih h]

theorem foldl_mset_map {κ ν ν' : Type} [DecidableEq κ] (g : ν → ν') :
    ∀ (l : List (κ × ν)) (acc : List (κ × ν')),
      (keysOf l).Nodup → (∀ e ∈ l, mget acc e.1 = none) →
      l.foldl (fun m e => mset m e.1 (g e.2)) acc = acc ++ l.map (fun e => (e.1, g e.2)) := by
  intro l
  induction l with
  | nil =>
    intro acc _ _
    simp
  | cons e rest ih =>
    intro acc hnd hdisj
    have hnd' : (keysOf rest).Nodup := by
      simp only [keysOf, List.map_cons, List.nodup_cons] at hnd
      exact hnd.2
    have henotin : ¬ e.1 ∈ keysOf rest := by
      simp only [keysOf, List.map_cons, List.nodup_cons] at hnd
      exact hnd.1
    have hstep : mset acc e.1 (g e.2) = acc ++ [(e.1, g e.2)] :=
      mset_append_of_none _ (hdisj e (List.mem_cons_self e rest))
    have hdisj' : ∀ f ∈ rest, mget (acc ++ [(e.1, g e.2)]) f.1 = none := by
      intro f hf
      rw [mget_append, hdisj f (List.mem_cons_of_mem e hf)]
      have hne : ¬ e.1 = f.1 := by
        intro he
        exact henotin (he ▸ List.mem_map_of_mem Prod.fst hf)
      simp [mget, hne]
    simp only [List.foldl_cons, hstep]
    rw [ih (acc ++ [(e.1, g e.2)]) hnd' hdisj']
    simp

theorem rebuild_eq {κ ν : Type} [DecidableEq κ] (vm : List (κ × ν))
    (hnd : (keysOf vm).Nodup) :
    vm.foldl (fun m p => mset m p.1 p.2) [] = vm := by
  have h := foldl_mset_map (fun v => v) vm [] hnd (fun e _ => rfl)
  simpa using h

theorem importExport_state {M : Type} (s : TagVectorSystem M) (h : WFkeys s) :
    ((TagVectorSystem.new M).importIndex (s.exportIndex true)).categoryMap = s.categoryMap ∧
    ((TagVectorSystem.new M).importIndex (s.exportIndex true)).vectorSize = s.vectorSize ∧
    ((TagVectorSystem.new M).importIndex (s.exportIndex true)).itemVectors = s.itemVectors ∧
    ((TagVectorSystem.new M).importIndex (s.exportIndex true)).categoryWeights
      = s.categoryWeights.map (fun e => (e.1, if e.2 = 0 then 1 else e.2)) ∧
    ((TagVectorSystem.new M).importIndex (s.exportIndex true)).itemMeta = [] ∧
    ((TagVectorSystem.new M).importIndex (s.exportIndex true)).queryCache = none := by
  obtain ⟨hcm, hcmi, hiv, hivi, hwt⟩ := h
  refine ⟨?_, rfl, ?_, ?_, rfl, rfl⟩
  · show (s.categoryMap.foldl
        (fun cm e => mset cm e.1 (e.2.foldl (fun vm p => mset vm p.1 p.2) [])) [])
      = s.categoryMap
    rw [foldl_mset_map (fun vm => vm.foldl (fun m p => mset m p.1 p.2) [])
      s.categoryMap [] hcm (fun e _ => rfl)]
    have hpt : ∀ e ∈ s.categoryMap,
        (e.1, e.2.foldl (fun (m : List (String × ℕ)) p => mset m p.1 p.2) []) = e := by
      intro e he
      rw [rebuild_eq e.2 (hcmi e he)]
    rw [List.nil_append, List.map_congr_left hpt]
    simp
  · show ((if true then some s.itemVectors else none).getD []).foldl
        (fun iv e => mset iv e.1 (e.2.foldl (fun sv p => mset sv p.1 p.2) [])) []
      = s.itemVectors
    simp only [if_true, Option.getD_some]
    rw [foldl_mset_map (fun sv => sv.foldl (fun m p => mset m p.1 p.2) [])
      s.itemVectors [] hiv (fun e _ => rfl)]
    have hpt : ∀ e ∈ s.itemVectors,
        (e.1, e.2.foldl (fun (m : SparseVector) p => mset m p.1 p.2) []) = e := by
      intro e he
      rw [rebuild_eq e.2 (hivi e he)]
    rw [List.nil_append, List.map_congr_left hpt]
    simp
  · show ((s.categoryWeights.map (fun e => CategoryWeight.mk e.1 (some e.2))).foldl
        (fun m w => mset m w.category (jsOr1 w.weight)) []) = _
    rw [List.foldl_map]
    rw [foldl_mset_map (fun w => jsOr1 (some w)) s.categoryWeights [] hwt (fun e _ => rfl)]
    rw [List.nil_append]
    rfl

theorem jsOr1_norm (o : Option ℚ) :
    jsOr1 (o.map (fun w => if w = 0 then 1 else w)) = jsOr1 o := by
  cases o with
  | none => rfl
  | some w =>
    by_cases hw : w = 0 <;> simp [jsOr1, hw]

theorem encode_congr {M₁ M₂ : Type} (s₁ : TagVectorSystem M₁) (s₂ : TagVectorSystem M₂)
    (hcm : s₁.categoryMap = s₂.categoryMap)
    (hw : ∀ c, jsOr1 (mget s₁.categoryWeights c) = jsOr1 (mget s₂.categoryWeights c))
    (tags : List Tag) :
    s₁.encodeToSparseVector tags = s₂.encodeToSparseVector tags := by
  unfold TagVectorSystem.encodeToSparseVector
  have hf : (fun (sv : SparseVector) (tag : Tag) =>
      match mget s₁.categoryMap tag.category with
      | none => sv
      | some valueMap =>
        match mget valueMap tag.value with
        | none => sv
        | some position =>
          if (0 : ℚ) < tag.confidence then
            mset sv position (tag.confidence * jsOr1 (mget s₁.categoryWeights tag.category))
          else sv)
    = (fun (sv : SparseVector) (tag : Tag) =>
      match mget s₂.categoryMap tag.category with
      | none => sv
      | some valueMap =>
        match mget valueMap tag.value with
        | none => sv
        | some position =>
          if (0 : ℚ) < tag.confidence then
            mset sv position (tag.confidence * jsOr1 (mget s₂.categoryWeights tag.category))
          else sv) := by
    funext sv tag
    simp only [hcm, hw tag.category]
  rw [hf]

theorem computeResults_none_congr {M₁ M₂ : Type} (s₁ : TagVectorSystem M₁)
    (s₂ : TagVectorSystem M₂) (hiv : s₁.itemVectors = s₂.itemVectors) (qv : SparseVector) :
    s₁.computeResults qv none = s₂.computeResults qv none := by
  unfold TagVectorSystem.computeResults TagVectorSystem.candidateResults
  simp only [passFilter, hiv]

/-- Claim C3 (amended): `importIndex(exportIndex(true))` on a fresh instance
reproduces the original's results for every query WITHOUT a filter (any
page and size), provided the original's query cache is empty (a stale cache
— reachable only through the `buildIndex` bug of C1 — would be answered
from on the original but recomputed on the copy).  Queries with a filter
are not preserved in general because `exportIndex` does not export the item
metadata, so on the imported instance every filter sees missing metadata —
see the counterexample. -/
theorem c3_roundtrip {M : Type} (s : TagVectorSystem M) (h : WFkeys s)
    (hc : s.queryCache = none) (tags : List Tag) (page size : ℕ) :
    (((TagVectorSystem.new M).importIndex (s.exportIndex true)).query tags
        ⟨page, size, none⟩).1
      = (s.query tags ⟨page, size, none⟩).1 := by
  obtain ⟨hcm, _, hiv, hwt, _, hqc⟩ := importExport_state s h
  rw [query_results_of_cache_none _ tags ⟨page, size, none⟩ hqc,
    query_results_of_cache_none s tags ⟨page, size, none⟩ hc]
  have hw : ∀ c, jsOr1 (mget ((TagVectorSystem.new M).importIndex
      (s.exportIndex true)).categoryWeights c) = jsOr1 (mget s.categoryWeights c) := by
    intro c
    rw [hwt, mget_map s.categoryWeights (fun w => if w = 0 then 1 else w) c, jsOr1_norm]
  rw [encode_congr _ s hcm hw (tagSort tags)]
  rw [computeResults_none_congr _ s hiv]

/-- Claim C3, witness for the amended theorem: one indexed item with
metadata, exported and re-imported, queried without a filter. -/
theorem c3_roundtrip_witness :
    WFkeys (((TagVectorSystem.new Bool).buildIndex [⟨"a", "x"⟩]).addItem
      ⟨"i1", [⟨"a", "x", 1⟩], some true⟩) ∧
    (((TagVectorSystem.new Bool).buildIndex [⟨"a", "x"⟩]).addItem
      ⟨"i1", [⟨"a", "x", 1⟩], some true⟩).queryCache = none ∧
    (((TagVectorSystem.new Bool).importIndex
        (((((TagVectorSystem.new Bool).buildIndex [⟨"a", "x"⟩]).addItem
          ⟨"i1", [⟨"a", "x", 1⟩], some true⟩)).exportIndex true)).query
        [⟨"a", "x", 1⟩] ⟨1, 10, none⟩).1
      = ((((TagVectorSystem.new Bool).buildIndex [⟨"a", "x"⟩]).addItem
          ⟨"i1", [⟨"a", "x", 1⟩], some true⟩).query [⟨"a", "x", 1⟩] ⟨1, 10, none⟩).1 :=
  ⟨by decide, rfl,
    c3_roundtrip (((TagVectorSystem.new Bool).buildIndex [⟨"a", "x"⟩]).addItem
      ⟨"i1", [⟨"a", "x", 1⟩], some true⟩) (by decide) rfl [⟨"a", "x", 1⟩] 1 10⟩

/-- Claim C3, counterexample: the item metadata is not part of the export,
so a query whose filter keys on the metadata returns the item on the
original instance but nothing on the re-imported copy. -/
theorem c3_counterexample_filter_query :
    (((TagVectorSystem.new Bool).importIndex
        ((((TagVectorSystem.new Bool).buildIndex [⟨"a", "x"⟩]).addItem
          ⟨"i1", [⟨"a", "x", 1⟩], some true⟩).exportIndex true)).query
        [⟨"a", "x", 1⟩] ⟨1, 10, some ⟨0, fun m => decide (m = some true)⟩⟩).1
    ≠ ((((TagVectorSystem.new Bool).buildIndex [⟨"a", "x"⟩]).addItem
          ⟨"i1", [⟨"a", "x", 1⟩], some true⟩).query [⟨"a", "x", 1⟩]
          ⟨1, 10, some ⟨0, fun m => decide (m = some true)⟩⟩).1 := by
  have hR : ((((TagVectorSystem.new Bool).buildIndex [⟨"a", "x"⟩]).addItem
        ⟨"i1", [⟨"a", "x", 1⟩], some true⟩).query [⟨"a", "x", 1⟩]
        ⟨1, 10, some ⟨0, fun m => decide (m = some true)⟩⟩).1
      = [⟨"i1", 1⟩] := by
    rw [query_results_of_cache_none _ [⟨"a", "x", 1⟩]
      ⟨1, 10, some ⟨0, fun m => decide (m = some true)⟩⟩ rfl]
    rw [show (((TagVectorSystem.new Bool).buildIndex [⟨"a", "x"⟩]).addItem
        ⟨"i1", [⟨"a", "x", 1⟩], some true⟩).encodeToSparseVector
        (tagSort [⟨"a", "x", 1⟩]) = [(0, (1:ℚ) * 1)] from rfl]
    unfold TagVectorSystem.computeResults TagVectorSystem.candidateResults
    rw [show (((TagVectorSystem.new Bool).buildIndex [⟨"a", "x"⟩]).addItem
        ⟨"i1", [⟨"a", "x", 1⟩], some true⟩).itemVectors
        = [("i1", [(0, (1:ℚ) * 1)])] from rfl]
    rw [show (((TagVectorSystem.new Bool).buildIndex [⟨"a", "x"⟩]).addItem
        ⟨"i1", [⟨"a", "x", 1⟩], some true⟩).itemMeta = [("i1", true)] from rfl]
    simp only [List.filter_cons, List.filter_nil]
    rw [show passFilter (some (⟨0, fun m => decide (m = some true)⟩ : IFilter Bool))
        (mget [("i1", true)] "i1") = true from rfl]
    simp only [if_true, List.map_cons, List.map_nil, List.filter_cons, List.filter_nil]
    have hsim : cosineSimilarity [(0, (1:ℚ) * 1)] [(0, (1:ℚ) * 1)] = 1 := by
      apply cosineSimilarity_self
      · decide
      · intro e he
        simp only [List.mem_singleton] at he
        rw [he]
        norm_num
      · simp
    rw [hsim]
    rw [show (decide ((0:ℝ) < (QueryResult.mk "i1" 1).similarity)) = true from
      decide_eq_true (by norm_num)]
    rfl
  rw [hR]
  have hL : (((TagVectorSystem.new Bool).importIndex
      ((((TagVectorSystem.new Bool).buildIndex [⟨"a", "x"⟩]).addItem
        ⟨"i1", [⟨"a", "x", 1⟩], some true⟩).exportIndex true)).query
      [⟨"a", "x", 1⟩] ⟨1, 10, some ⟨0, fun m => decide (m = some true)⟩⟩).1 = [] := rfl
  rw [hL]
  simp
